import Mathlib

/-!
# Verification of the bare-transport V3 client (`src/V3.ts`)

This file gives a shallow embedding of the V3 Bare-protocol client
(`ClientV3` in `src/V3.ts` and its wire types in `src/V3Types.d.ts`)
and proves / refutes the frozen specification claims about it.

Host-runtime collaborators (the WHATWG `URL` class, `fetch`'s
`Response`/`Headers`, `JSON.parse` / `JSON.stringify`,
`Object.entries` / `Object.fromEntries`, and the `WebSocket` event
interface) are modelled explicitly below, since the client's observable
behaviour is defined in terms of them.  The header chunking codec
(`splitHeaderUtil.js`) is imported by `src/V3.ts` but its source is not
part of the repository snapshot; it is modelled from the specification
(see `SplitHeaderUtil` below).
-/

namespace BareV3

/-! ## JSON values (model of the host JavaScript JSON data) -/

/-- A JavaScript JSON value.  Numbers are modelled as integers (the
claims under verification never involve fractional numbers).  Object
fields are an ordered key/value list; parsing collapses duplicate keys
the way JavaScript does (last write wins, first position kept). -/
inductive Json where
  | null : Json
  | bool (b : Bool) : Json
  | num (n : Int) : Json
  | str (s : String) : Json
  | arr (elems : List Json) : Json
  | obj (fields : List (String × Json)) : Json

/-- First-match field lookup on a JSON object's field list (JavaScript
property access; parsed objects hold at most one field per key). -/
def lookupField : List (String × Json) → String → Option Json
  | [], _ => none
  | (k, v) :: rest, key => if k = key then some v else lookupField rest key

/-- Model of JavaScript `Object.fromEntries` on string-keyed entries:
later entries overwrite the value of an existing key in place; fresh
keys are appended in encounter order. -/
def setEntry {α : Type} : List (String × α) → String → α → List (String × α)
  | [], k, v => [(k, v)]
  | (k', v') :: rest, k, v =>
    if k' = k then (k, v) :: rest else (k', v') :: setEntry rest k v

/-- JavaScript `Object.fromEntries`: builds the ordered key/value list
of the resulting object. -/
def fromEntriesJS {α : Type} (l : List (String × α)) : List (String × α) :=
  l.foldl (fun acc p => setEntry acc p.1 p.2) []

/-- Decimal digit value of a character, if it is `'0'`–`'9'`. -/
def digitVal? (c : Char) : Option Nat :=
  if c.isDigit then some (c.toNat - 48) else none

/-- Accumulating decimal parser over a character list. -/
def digitsToNatAux : Nat → List Char → Option Nat
  | acc, [] => some acc
  | acc, c :: cs =>
    match digitVal? c with
    | some d => digitsToNatAux (10 * acc + d) cs
    | none => none

/-- Parses a nonempty all-digit character list as a decimal natural
number; `none` on the empty list or any non-digit character. -/
def charsToNat? : List Char → Option Nat
  | [] => none
  | c :: cs => digitsToNatAux 0 (c :: cs)

/-- Characters skipped as insignificant JSON whitespace. -/
def isJsonWs (c : Char) : Bool :=
  c = ' ' || c = '\n' || c = '\t' || c = '\r'

/-- Drops leading JSON whitespace. -/
def skipWs : List Char → List Char
  | [] => []
  | c :: cs => if isJsonWs c then skipWs cs else c :: cs

/-- Resolves a JSON string escape character (the common single-character
escapes; `\uXXXX` escapes are not modelled — the inputs under
verification never contain them, and an unmodelled escape makes the
parse fail rather than succeed wrongly). -/
def escChar? (c : Char) : Option Char :=
  if c = 'n' then some '\n'
  else if c = 't' then some '\t'
  else if c = 'r' then some '\r'
  else if c = '"' ∨ c = '\\' ∨ c = '/' then some c
  else if c = 'b' then some (Char.ofNat 8)
  else if c = 'f' then some (Char.ofNat 12)
  else none

/-- Parses the body of a JSON string literal (after the opening quote),
returning the decoded characters and the rest of the input. -/
def parseStrChars : List Char → Option (List Char × List Char)
  | [] => none
  | '"' :: cs => some ([], cs)
  | '\\' :: c :: cs =>
    match escChar? c with
    | some e => (parseStrChars cs).map (fun p => (e :: p.1, p.2))
    | none => none
  | ['\\'] => none
  | c :: cs => (parseStrChars cs).map (fun p => (c :: p.1, p.2))

mutual

/-- Fuel-bounded JSON value parser (model of the host `JSON.parse`;
fuel makes the recursion structural so that concrete parses reduce in
the kernel).  Returns the value and the unconsumed input. -/
def parseValue : Nat → List Char → Option (Json × List Char)
  | 0, _ => none
  | fuel + 1, cs =>
    match skipWs cs with
    | [] => none
    | '"' :: rest => (parseStrChars rest).map (fun p => (.str p.1.asString, p.2))
    | '[' :: rest =>
      (match skipWs rest with
       | ']' :: r => some (.arr [], r)
       | _ => (parseArrElems fuel rest).map (fun p => (.arr p.1, p.2)))
    | '\x7b' :: rest =>
      (match skipWs rest with
       | '\x7d' :: r => some (.obj [], r)
       | _ => (parseObjFields fuel rest).map (fun p => (.obj (fromEntriesJS p.1), p.2)))
    | 't' :: 'r' :: 'u' :: 'e' :: r => some (.bool true, r)
    | 'f' :: 'a' :: 'l' :: 's' :: 'e' :: r => some (.bool false, r)
    | 'n' :: 'u' :: 'l' :: 'l' :: r => some (.null, r)
    | '-' :: rest =>
      (let p := rest.span Char.isDigit
       match charsToNat? p.1 with
       | some k => some (.num (-(k : Int)), p.2)
       | none => none)
    | c :: rest =>
      (let p := (c :: rest).span Char.isDigit
       match charsToNat? p.1 with
       | some k => some (.num (k : Int), p.2)
       | none => none)

/-- Parses one-or-more comma-separated JSON array elements up to the
closing bracket. -/
def parseArrElems : Nat → List Char → Option (List Json × List Char)
  | 0, _ => none
  | fuel + 1, cs => do
    let (v, rest) ← parseValue fuel cs
    match skipWs rest with
    | ',' :: r => (parseArrElems fuel r).map (fun p => (v :: p.1, p.2))
    | ']' :: r => some ([v], r)
    | _ => none

/-- Parses one-or-more comma-separated `"key": value` JSON object
members up to the closing brace. -/
def parseObjFields : Nat → List Char → Option (List (String × Json) × List Char)
  | 0, _ => none
  | fuel + 1, cs =>
    match skipWs cs with
    | '"' :: rest => do
      let (key, r1) ← parseStrChars rest
      match skipWs r1 with
      | ':' :: r2 => do
        let (v, r3) ← parseValue fuel r2
        match skipWs r3 with
        | ',' :: r4 => (parseObjFields fuel r4).map (fun p => ((key.asString, v) :: p.1, p.2))
        | '\x7d' :: r4 => some ([(key.asString, v)], r4)
        | _ => none
      | _ => none
    | _ => none

end

/-- Model of the host `JSON.parse`: `none` when the host function would
throw a `SyntaxError`. -/
def parseJson (s : String) : Option Json :=
  match parseValue (s.length + 1) s.toList with
  | some (j, rest) => if skipWs rest = [] then some j else none
  | none => none

/-- Minimal JSON string-literal escaping (quote, backslash and the
common control characters), used by the `JSON.stringify` model. -/
def escapeJsonChar (c : Char) : List Char :=
  if c = '"' then ['\\', '"']
  else if c = '\\' then ['\\', '\\']
  else if c = '\n' then ['\\', 'n']
  else if c = '\t' then ['\\', 't']
  else if c = '\r' then ['\\', 'r']
  else [c]

/-- Renders a JSON string literal. -/
def quoteJson (s : String) : String :=
  ('"' :: (s.toList.flatMap escapeJsonChar) ++ ['"']).asString

mutual

/-- Model of the host `JSON.stringify` (no indentation, insertion-order
fields — the order in which `src/V3.ts` builds its literals). -/
def Json.stringify : Json → String
  | .null => "null"
  | .bool b => if b then "true" else "false"
  | .num n => n.repr
  | .str s => quoteJson s
  | .arr xs => "[" ++ Json.stringifyElems xs ++ "]"
  | .obj fs => "\x7b" ++ Json.stringifyFields fs ++ "\x7d"

/-- Comma-separated rendering of array elements. -/
def Json.stringifyElems : List Json → String
  | [] => ""
  | [x] => Json.stringify x
  | x :: xs => Json.stringify x ++ "," ++ Json.stringifyElems xs

/-- Comma-separated rendering of object members. -/
def Json.stringifyFields : List (String × Json) → String
  | [] => ""
  | [(k, v)] => quoteJson k ++ ":" ++ Json.stringify v
  | (k, v) :: fs => quoteJson k ++ ":" ++ Json.stringify v ++ "," ++ Json.stringifyFields fs

end

/-- Model of JavaScript `Object.entries` on a parsed JSON value: an
object yields its own (ordered) field list, an array yields its
elements keyed by decimal index, a string yields its characters keyed
by index.  Primitives yield `[]`; `Object.entries(null)` actually
throws a `TypeError` in JavaScript, but no claim under verification
reaches that case, so the model returns `[]` there as well. -/
def objectEntries : Json → List (String × Json)
  | .obj fs => fs
  | .arr xs => (xs.enum).map (fun p => (Nat.repr p.1, p.2))
  | .str s => (s.toList.enum).map (fun p => (Nat.repr p.1, Json.str (String.singleton p.2)))
  | _ => []

/-! ## Header chunking codec

Modelled from the spec: `src/V3.ts` imports `joinHeaders` and
`splitHeaders` from `./splitHeaderUtil.js`, a repository file that is
not part of the snapshot under `src/`.  The definitions below follow
the specification's §3 "Chunked header group" and §4.1 "Header Codec":
`split` leaves a value of length `≤ threshold` unchanged and otherwise
emits consecutive substrings of at most `threshold` characters under
the names `name`, `name-1`, `name-2`, …; `join` strips a trailing
`-<n>` suffix only when a matching base-named entry exists, sorts each
group by suffix ascending (bare name = suffix 0) and concatenates the
chunk values with no separator, failing on a gap in the suffix
sequence. -/

/-- One split step: cuts a character list into consecutive pieces of at
most `thr` characters.  The fuel argument (instantiated with the list
length) makes the recursion structural. -/
def chunkList (thr : Nat) : Nat → List Char → List (List Char)
  | 0, cs => [cs]
  | fuel + 1, cs =>
    if cs.length ≤ thr then [cs] else cs.take thr :: chunkList thr fuel (cs.drop thr)

/-- Cuts a header value into chunks of at most `thr` characters. -/
def chunksOf (thr : Nat) (v : String) : List String :=
  (chunkList thr v.toList.length v.toList).map List.asString

/-- Physical name of the `i`-th chunk of logical header `n`:
`n` itself for the first chunk, `n-i` for continuations. -/
def mkChunkName (n : String) (i : Nat) : String :=
  if i = 0 then n else n ++ "-" ++ Nat.repr i

/-- Pairs a run of chunks with their physical names, starting at chunk
index `i`. -/
def nameChunks (n : String) : Nat → List String → List (String × String)
  | _, [] => []
  | i, c :: cs => (mkChunkName n i, c) :: nameChunks n (i + 1) cs

/-- Modelled from the spec (§4.1): the `splitHeaders` step of
`splitHeaderUtil.js`.  Headers at most `thr` characters long pass
through unchanged; longer values are emitted as the numbered chunk
group `name`, `name-1`, `name-2`, …. -/
def splitHeaders (thr : Nat) (hs : List (String × String)) : List (String × String) :=
  hs.flatMap (fun p =>
    if p.2.length ≤ thr then [p] else nameChunks p.1 0 (chunksOf thr p.2))

/-- Splits `name` at its last dash: `some (base, rest)` when
`name = base ++ "-" ++ rest`, with `rest` dash-free. -/
def splitLastDash (cs : List Char) : Option (List Char × List Char) :=
  match cs.reverse.dropWhile (fun c => c != '-') with
  | '-' :: baseRev =>
    some (baseRev.reverse, (cs.reverse.takeWhile (fun c => c != '-')).reverse)
  | _ => none

/-- Reads a trailing `-<n>` decimal suffix off a physical header name:
`some (base, n)` when the name has the shape `base-<n>`. -/
def suffixOf (name : String) : Option (String × Nat) :=
  match splitLastDash name.toList with
  | some (base, ds) => (charsToNat? ds).map (fun k => (base.asString, k))
  | none => none

/-- Base name and chunk index of a physical entry (spec §4.1): the
trailing `-<n>` suffix is stripped only when a matching base-named
entry exists among the physical names; otherwise the name is its own
base with suffix 0. -/
def tagOf (names : List String) (n : String) : String × Nat :=
  match suffixOf n with
  | some (b, k) => if names.contains b then (b, k) else (n, 0)
  | none => (n, 0)

/-- Insertion into a list of tagged chunks sorted by chunk index. -/
def sortInsert (x : (String × Nat) × String) :
    List ((String × Nat) × String) → List ((String × Nat) × String)
  | [] => [x]
  | y :: ys => if x.1.2 ≤ y.1.2 then x :: y :: ys else y :: sortInsert x ys

/-- Insertion sort of tagged chunks by chunk index ascending. -/
def sortByIdx (l : List ((String × Nat) × String)) : List ((String × Nat) × String) :=
  l.foldr sortInsert []

/-- The distinct base names in first-appearance order (`seen`
accumulates names already emitted). -/
def dedupKeep (seen : List String) : List String → List String
  | [] => []
  | x :: xs => if seen.contains x then dedupKeep seen xs else x :: dedupKeep (x :: seen) xs

/-- Concatenates the values of a (sorted) chunk group with no
separator. -/
def concatVals (l : List ((String × Nat) × String)) : String :=
  l.foldr (fun t acc => t.2 ++ acc) ""

/-- The sorted chunk group of base name `b`. -/
def groupOf (tagged : List ((String × Nat) × String)) (b : String) :
    List ((String × Nat) × String) :=
  sortByIdx (tagged.filter (fun t => t.1.1 == b))

/-- Reassembles one logical header per base name; `none` on a gap in a
group's suffix sequence (spec §4.1: "Groups with gaps in the suffix
sequence are a codec error"). -/
def collectGroups (tagged : List ((String × Nat) × String)) :
    List String → Option (List (String × String))
  | [] => some []
  | b :: bs =>
    if (groupOf tagged b).map (fun t => t.1.2) = List.range (groupOf tagged b).length then
      (collectGroups tagged bs).map (fun rest => (b, concatVals (groupOf tagged b)) :: rest)
    else none

/-- The tagged physical entries: each entry paired with its base name
and chunk index. -/
def tagEntries (phys : List (String × String)) : List ((String × Nat) × String) :=
  phys.map (fun p => (tagOf (phys.map Prod.fst) p.1, p.2))

/-- Modelled from the spec (§4.1): the `joinHeaders` step of
`splitHeaderUtil.js`.  Groups physical entries by base name, sorts each
group by chunk suffix and concatenates; `none` is the codec error. -/
def joinHeaders (phys : List (String × String)) : Option (List (String × String)) :=
  collectGroups (tagEntries phys) (dedupKeep [] ((tagEntries phys).map (fun t => t.1.1)))

/-- Modelled from the spec (§4.1): the codec's fixed chunk-size
configuration constant.  Its numeric value is not recorded in the
snapshot; 3072 is a stand-in, and every theorem about the codec is
proved for an arbitrary positive threshold. -/
def maxHeaderValue : Nat := 3072

/-! ## URL model

The WHATWG `URL` class is a host collaborator (out of scope per spec
§1); it is modelled as a record of the components the client touches.
`protocol` carries its trailing colon (`"https:"`), `host` includes the
port, and assignment to `protocol` is modelled as plain component
replacement. -/

/-- Model of a parsed WHATWG `URL` value. -/
structure JsURL where
  protocol : String
  host : String
  pathname : String
  search : String
  deriving DecidableEq

/-- Model of `URL#toString` serialization. -/
def JsURL.toStr (u : JsURL) : String :=
  u.protocol ++ "//" ++ u.host ++ u.pathname ++ u.search

/-- The endpoint derivation of the `ClientV3` constructor
(`src/V3.ts:22–33`): `http` is a copy of the base URL, `ws` is a copy
whose scheme becomes `wss:` when the base scheme is `https:` and `ws:`
otherwise. -/
def deriveEndpoints (base : JsURL) : JsURL × JsURL :=
  let ws := if base.protocol = "https:"
    then { base with protocol := "wss:" }
    else { base with protocol := "ws:" }
  (base, ws)

/-! ## HTTP tunnel client (`request` / `readBareResponse` /
`createBareHeaders`, `src/V3.ts:115–199`) -/

/-- Model of JavaScript `parseInt(s)` (base 10): leading whitespace
skipped, optional sign, longest leading digit run; `none` models
`NaN`. -/
def parseIntJS (s : String) : Option Int :=
  let cs := skipWs s.toList
  match cs with
  | '-' :: rest =>
    (charsToNat? (rest.takeWhile Char.isDigit)).map (fun k => -(k : Int))
  | '+' :: rest =>
    (charsToNat? (rest.takeWhile Char.isDigit)).map (fun k => (k : Int))
  | _ => (charsToNat? (cs.takeWhile Char.isDigit)).map (fun k => (k : Int))

/-- The physical `fetch` response handed to `readBareResponse`: status,
body (already JSON-decoded by the host `response.json()`), and the
physical response headers (name/value pairs, names lowercased by the
host `Headers` machinery). -/
structure PhysResponse where
  status : Nat
  bodyJson : Json
  headers : List (String × String)

/-- Model of `Response#ok`: status in the inclusive range 200–299. -/
def PhysResponse.okResp (r : PhysResponse) : Bool :=
  decide (200 ≤ r.status) && decide (r.status < 300)

/-- `BareError` (from `./BareTypes`): the tunnel-fault error thrown by
`readBareResponse` on a non-success physical status, carrying that
status and the JSON-parsed body. -/
structure BareError where
  status : Nat
  body : Json

/-- The ways the decode side of `request` can fail: a tunnel fault
(`BareError`), a codec error thrown inside `joinHeaders`, or a
`SyntaxError` thrown by `JSON.parse` on a malformed `x-bare-headers`
value. -/
inductive RequestError where
  | bare (e : BareError)
  | codec
  | jsonParse

/-- The decoded logical response (`BareResponseHeaders` in
`src/V3Types.d.ts`, built as a `Partial` in `readBareResponse`):
`none` fields model properties never assigned.  `status` is
`some (parseIntJS v)` when `x-bare-status` is present with value `v`
(the inner `none` models `NaN`).  Header values decoded from
`x-bare-headers` are whatever JSON values `Object.entries` produces
(the TypeScript merely casts them to strings). -/
structure BareResponseHeaders where
  status : Option (Option Int)
  statusText : Option String
  headers : Option (List (String × Json))

/-- First-match lookup of a (lowercased) header name, modelling
`Headers#get` on the joined response headers. -/
def lookupHeader : List (String × String) → String → Option String
  | [], _ => none
  | (k, v) :: rest, key => if k = key then some v else lookupHeader rest key

/-- Embedding of `ClientV3.readBareResponse` (`src/V3.ts:152–171`):
non-success physical status throws `BareError(status, body)`;
otherwise the physical headers are joined and `x-bare-status`
(via `parseInt`), `x-bare-status-text` (verbatim) and `x-bare-headers`
(via `Object.entries(JSON.parse(·))`) populate the result — each field
left unset when its header is absent. -/
def readBareResponse (resp : PhysResponse) : Except RequestError BareResponseHeaders :=
  if resp.okResp then
    match joinHeaders resp.headers with
    | none => .error .codec
    | some rh =>
      match lookupHeader rh "x-bare-headers" with
      | some hstr =>
        match parseJson hstr with
        | none => .error .jsonParse
        | some j =>
          .ok { status := (lookupHeader rh "x-bare-status").map parseIntJS,
                statusText := lookupHeader rh "x-bare-status-text",
                headers := some (objectEntries j) }
      | none =>
        .ok { status := (lookupHeader rh "x-bare-status").map parseIntJS,
              statusText := lookupHeader rh "x-bare-status-text",
              headers := none }
  else .error (.bare ⟨resp.status, resp.bodyJson⟩)

/-- The JavaScript object `Object.fromEntries(bareHeaders)` from which
`request` builds the outbound `x-bare-headers` value
(`src/V3.ts:182`). -/
def xBareHeadersObject (hs : List (String × String)) : List (String × String) :=
  fromEntriesJS hs

/-- The serialized outbound `x-bare-headers` value:
`JSON.stringify(Object.fromEntries(bareHeaders))`. -/
def xBareHeadersValue (hs : List (String × String)) : String :=
  Json.stringify (.obj ((xBareHeadersObject hs).map (fun p => (p.1, .str p.2))))

/-- Embedding of `ClientV3.createBareHeaders` (`src/V3.ts:172–199`):
sets `x-bare-url` and `x-bare-headers`, appends one
`x-bare-forward-headers` / `x-bare-pass-headers` / `x-bare-pass-status`
entry per listed item (all three lists default to `[]` in TypeScript;
`request` relies on those defaults), then applies the codec split step
to the whole set. -/
def createBareHeaders (remote : JsURL) (bareHeaders : List (String × String))
    (forwardHeaders : List String) (passHeaders : List String)
    (passStatus : List Nat) : List (String × String) :=
  let hs := [("x-bare-url", remote.toStr), ("x-bare-headers", xBareHeadersValue bareHeaders)]
  let hs := hs ++ forwardHeaders.map (fun h => ("x-bare-forward-headers", h))
  let hs := hs ++ passHeaders.map (fun h => ("x-bare-pass-headers", h))
  let hs := hs ++ passStatus.map (fun st => ("x-bare-pass-status", Nat.repr st))
  splitHeaders maxHeaderValue hs

/-- The observable outcome of one `ClientV3.request` call: the
caller's header array after the in-place `Host` push, the outbound
physical header set, and the decoded result (the streamed body and the
`method`/`signal` plumbing pass through the host `fetch` untouched and
carry no protocol logic). -/
structure RequestOutcome where
  mutatedHeaders : List (String × String)
  outboundHeaders : List (String × String)
  result : Except RequestError BareResponseHeaders

/-- Embedding of `ClientV3.request` (`src/V3.ts:115–150`),
parameterized by the physical response the host `fetch` returns:
pushes `["Host", remote.host]` onto the caller's header array, builds
the outbound header set from the mutated array, and decodes the
response via `readBareResponse`. -/
def request (remote : JsURL) (headers : List (String × String))
    (resp : PhysResponse) : RequestOutcome :=
  let headers' := headers ++ [("Host", remote.host)]
  { mutatedHeaders := headers',
    outboundHeaders := createBareHeaders remote headers' [] [] [],
    result := readBareResponse resp }

/-- Canonical tagging of a chunk run: the `i`-th chunk of base `n`
carries tag `(n, i)` (proof-side normal form of the join step's
tagging). -/
def idxChunks (n : String) : Nat → List String → List ((String × Nat) × String)
  | _, [] => []
  | i, c :: cs => ((n, i), c) :: idxChunks n (i + 1) cs

/-! ## WebSocket tunnel client (`connect`, `src/V3.ts:38–113`)

`connect` is driven by the host `WebSocket`'s `open` / `message` /
`close` events.  The embedding folds the event sequence of one socket
through a state machine whose state records which listeners are
installed, and collects the observable callback/socket actions. -/

/-- Payload of one incoming socket message event (`event.data`): a text
frame or an opaque binary payload. -/
inductive WSData where
  | text (s : String)
  | binary (bytes : List Nat)
  deriving DecidableEq

/-- One event fired by the underlying `WebSocket`. -/
inductive WSEvent where
  | opened
  | message (d : WSData)
  | closed (code : Nat) (reason : String)
  deriving DecidableEq

/-- An observable action of the `connect` machinery: a payload sent on
the socket, an invocation of one of the caller's callbacks, or an
exception thrown out of a listener (`connect` never calls the
`onerror` parameter; protocol violations surface as thrown
`TypeError` / `SyntaxError`, modelled by `throwErr`). -/
inductive CBAction where
  | send (payload : String)
  | onopen (protocol : Option String) (extensions : String)
  | onmessage (d : WSData)
  | onclose (code : Nat) (reason : String)
  | throwErr (msg : String)
  deriving DecidableEq

/-- Listener state of one `connect` call's socket:
`openListenerActive` — the `{once: true}` open listener is installed;
`handshakeActive` — `messageListener`/`closeListener` are installed
(`cleanup` removes both);
`established` — the pass-through message/close listeners are
installed. -/
structure ConnState where
  openListenerActive : Bool
  handshakeActive : Bool
  established : Bool
  deriving DecidableEq

/-- Listener state right after `connect` returns: the once-only open
listener and the handshake listeners are installed. -/
def initConnState : ConnState :=
  { openListenerActive := true, handshakeActive := true, established := false }

/-- The per-call data of one `connect` invocation: target URL,
protocol list, and the caller's header array after the three in-place
pushes (`src/V3.ts:51–53`). -/
structure ConnectInit where
  url : JsURL
  protocols : List String
  mutatedHeaders : List (String × String)

/-- Embedding of the argument processing at the top of
`ClientV3.connect`: pushes `Host`, `Upgrade` and `Connection` onto the
caller's header array. -/
def connectInit (url : JsURL) (protocols : List String)
    (requestHeaders : List (String × String)) : ConnectInit :=
  { url := url, protocols := protocols,
    mutatedHeaders := requestHeaders ++
      [("Host", url.host), ("Upgrade", "websocket"), ("Connection", "Upgrade")] }

/-- The Connect control message serialized by the open listener
(`src/V3.ts:97–106`): `JSON.stringify` of
`{type, remote, protocols, headers, forwardHeaders: []}` with
`headers` built by `Object.fromEntries` from the mutated header
array. -/
def connectText (c : ConnectInit) : String :=
  Json.stringify (.obj
    [("type", .str "connect"),
     ("remote", .str c.url.toStr),
     ("protocols", .arr (c.protocols.map Json.str)),
     ("headers", .obj ((fromEntriesJS c.mutatedHeaders).map (fun p => (p.1, Json.str p.2)))),
     ("forwardHeaders", .arr [])])

/-- Whether a parsed first frame satisfies `message.type === "open"`
(JavaScript property access on a non-object yields `undefined`, which
fails the comparison). -/
def jsonTypeIsOpen : Json → Bool
  | .obj fs =>
    match lookupField fs "type" with
    | some (.str s) => s == "open"
    | _ => false
  | _ => false

/-- The `message.protocol` field handed to `onopen`: `none` models a
missing / non-string property (JavaScript `undefined`). -/
def protocolOf : Json → Option String
  | .obj fs =>
    (match lookupField fs "protocol" with
     | some (.str s) => some s
     | _ => none)
  | _ => none

/-- One step of the `connect` socket machinery: processes one socket
event in a listener state, returning the next state and the actions
observed.  Mirrors `src/V3.ts:55–110`: the open listener (installed
`{once: true}`) sends the Connect message; the first message event
runs `messageListener`, which removes the handshake listeners first
(`cleanup`), throws on a non-text or non-`open` frame, and otherwise
fires `onopen` and installs the pass-through listeners; close during
the handshake fires `onclose` and cleans up; after establishment,
message and close events are forwarded verbatim. -/
def stepConn (c : ConnectInit) (s : ConnState) : WSEvent → ConnState × List CBAction
  | .opened =>
    if s.openListenerActive then
      ({ s with openListenerActive := false }, [.send (connectText c)])
    else (s, [])
  | .message d =>
    if s.handshakeActive then
      match d with
      | .binary _ =>
        ({ s with handshakeActive := false },
         [.throwErr "the first websocket message was not a text frame"])
      | .text str =>
        match parseJson str with
        | none =>
          ({ s with handshakeActive := false }, [.throwErr "SyntaxError: JSON.parse"])
        | some j =>
          if jsonTypeIsOpen j then
            ({ s with handshakeActive := false, established := true },
             [.onopen (protocolOf j) ""])
          else
            ({ s with handshakeActive := false }, [.throwErr "message was not of open type"])
    else if s.established then (s, [.onmessage d])
    else (s, [])
  | .closed code reason =>
    if s.handshakeActive then
      ({ s with handshakeActive := false }, [.onclose code reason])
    else if s.established then (s, [.onclose code reason])
    else (s, [])

/-- Folds a socket event sequence through `stepConn`, collecting each
event's action list. -/
def stepsConn (c : ConnectInit) (s : ConnState) : List WSEvent → List (List CBAction)
  | [] => []
  | e :: es => (stepConn c s e).2 :: stepsConn c (stepConn c s e).1 es

/-- All actions observed while processing an event sequence from
state `s`. -/
def runConnFrom (c : ConnectInit) (s : ConnState) (evs : List WSEvent) : List CBAction :=
  (stepsConn c s evs).flatten

/-- All actions observed by one `connect` call on an event
sequence. -/
def runConn (c : ConnectInit) (evs : List WSEvent) : List CBAction :=
  runConnFrom c initConnState evs

/-- The transparent pass-through behaviour after establishment: every
message is forwarded verbatim to `onmessage`, every close to
`onclose`, and further open events do nothing. -/
def passThroughActions : List WSEvent → List CBAction
  | [] => []
  | .opened :: es => passThroughActions es
  | .message d :: es => .onmessage d :: passThroughActions es
  | .closed code reason :: es => .onclose code reason :: passThroughActions es

/-- Whether a first frame violates the handshake: not text, not JSON,
or not of `type == "open"`. -/
def firstFrameBad : WSData → Bool
  | .binary _ => true
  | .text s =>
    match parseJson s with
    | none => true
    | some j => !(jsonTypeIsOpen j)

/-- Recognizer for socket-send actions. -/
def isSendB : CBAction → Bool
  | .send _ => true
  | _ => false

/-- Recognizer for `onopen` invocations. -/
def isOnopenB : CBAction → Bool
  | .onopen _ _ => true
  | _ => false

/-- Recognizer for `onmessage` invocations. -/
def isOnmessageB : CBAction → Bool
  | .onmessage _ => true
  | _ => false

/-- Recognizer for thrown exceptions. -/
def isThrowB : CBAction → Bool
  | .throwErr _ => true
  | _ => false

/-- Every event whose action list contains a socket send is an `open`
event (checked over the event/actions pairing of one run). -/
def sendOnlyOnOpenB : List (WSEvent × List CBAction) → Bool
  | [] => true
  | (e, as) :: rest =>
    (!(as.any isSendB) || (match e with | .opened => true | _ => false)) && sendOnlyOnOpenB rest

/-- No `onmessage` occurs before the first `onopen` in an action
list. -/
def noMsgBeforeOpenB : List CBAction → Bool
  | [] => true
  | .onopen _ _ :: _ => true
  | .onmessage _ :: _ => false
  | _ :: rest => noMsgBeforeOpenB rest

/-! ## Decimal rendering round-trip

`Nat.repr` renders the chunk suffixes the codec writes; these lemmas
show that `charsToNat?` reads them back. -/

/-- Proof-side decimal rendering of a natural number (big-endian digit
characters); shown below to coincide with `Nat.repr`'s character
list. -/
def decRepr (n : Nat) : List Char :=
  if _h : n < 10 then [Nat.digitChar n]
  else decRepr (n / 10) ++ [Nat.digitChar (n % 10)]
decreasing_by
  exact Nat.div_lt_self (by omega) (by omega)

theorem digitVal?_digitChar {d : Nat} (h : d < 10) :
    digitVal? (Nat.digitChar d) = some d := by
  interval_cases d <;> decide

theorem isDigit_digitChar {d : Nat} (h : d < 10) :
    (Nat.digitChar d).isDigit = true := by
  interval_cases d <;> decide

theorem decRepr_isDigit (n : Nat) : ∀ c ∈ decRepr n, c.isDigit = true := by
  induction n using Nat.strong_induction_on with
  | _ n ih =>
    rw [decRepr]
    split
    · intro c hc
      simp only [List.mem_singleton] at hc
      subst hc
      exact isDigit_digitChar (by omega)
    · intro c hc
      rcases List.mem_append.mp hc with h1 | h1
      · exact ih (n / 10) (Nat.div_lt_self (by omega) (by omega)) c h1
      · simp only [List.mem_singleton] at h1
        subst h1
        exact isDigit_digitChar (Nat.mod_lt _ (by omega))

theorem decRepr_ne_nil (n : Nat) : decRepr n ≠ [] := by
  rw [decRepr]
  split <;> simp

theorem digitsToNatAux_append (acc : Nat) (l1 l2 : List Char) :
    digitsToNatAux acc (l1 ++ l2) =
      (digitsToNatAux acc l1).bind (fun a => digitsToNatAux a l2) := by
  induction l1 generalizing acc with
  | nil => simp [digitsToNatAux]
  | cons c cs ih =>
    simp only [List.cons_append, digitsToNatAux]
    cases digitVal? c with
    | none => simp
    | some d => simp [ih]

theorem digitsToNatAux_singleton (acc : Nat) (c : Char) (d : Nat)
    (h : digitVal? c = some d) : digitsToNatAux acc [c] = some (10 * acc + d) := by
  simp [digitsToNatAux, h]

theorem digitsToNatAux_decRepr (n : Nat) : ∀ acc : Nat,
    digitsToNatAux acc (decRepr n) = some (acc * 10 ^ (decRepr n).length + n) := by
  induction n using Nat.strong_induction_on with
  | _ n ih =>
    intro acc
    rw [decRepr]
    split
    · next h =>
      rw [digitsToNatAux_singleton acc _ n (digitVal?_digitChar h)]
      simp only [List.length_singleton]
      congr 1
      ring
    · next h =>
      rw [digitsToNatAux_append]
      rw [ih (n / 10) (Nat.div_lt_self (by omega) (by omega)) acc]
      rw [Option.some_bind,
        digitsToNatAux_singleton _ _ (n % 10)
          (digitVal?_digitChar (Nat.mod_lt n (show 0 < 10 by omega)))]
      simp only [List.length_append, List.length_singleton]
      congr 1
      have hmod := Nat.div_add_mod n 10
      calc 10 * (acc * 10 ^ (decRepr (n / 10)).length + n / 10) + n % 10
          = acc * (10 ^ (decRepr (n / 10)).length * 10) + (10 * (n / 10) + n % 10) := by ring
        _ = acc * 10 ^ ((decRepr (n / 10)).length + 1) + n := by rw [pow_succ]; omega

theorem charsToNat?_decRepr (n : Nat) : charsToNat? (decRepr n) = some n := by
  obtain ⟨c, cs, hcs⟩ : ∃ c cs, decRepr n = c :: cs := by
    cases h : decRepr n with
    | nil => exact absurd h (decRepr_ne_nil n)
    | cons c cs => exact ⟨c, cs, rfl⟩
  rw [hcs]
  show digitsToNatAux 0 (c :: cs) = some n
  rw [← hcs, digitsToNatAux_decRepr]
  simp

theorem toDigitsCore_eq_decRepr (fuel n : Nat) (hn : n < fuel) (acc : List Char) :
    Nat.toDigitsCore 10 fuel n acc = decRepr n ++ acc := by
  induction fuel generalizing n acc with
  | zero => omega
  | succ fuel ih =>
    rw [Nat.toDigitsCore]
    by_cases h0 : n / 10 = 0
    · have hlt : n < 10 := by omega
      rw [decRepr]
      simp [h0, hlt, Nat.mod_eq_of_lt hlt]
    · have h10 : 10 ≤ n := by
        by_contra hc
        exact h0 (Nat.div_eq_of_lt (by omega))
      have hfuel : n / 10 < fuel := by
        have := Nat.div_lt_self (show 0 < n by omega) (show 1 < 10 by omega)
        omega
      simp only [h0, if_false]
      rw [ih (n / 10) hfuel]
      conv_rhs => rw [decRepr]
      have hnot : ¬ n < 10 := by omega
      simp [hnot]

theorem repr_toList (n : Nat) : (Nat.repr n).toList = decRepr n := by
  show (List.asString (Nat.toDigits 10 n)).toList = decRepr n
  rw [List.toList_asString, Nat.toDigits, toDigitsCore_eq_decRepr (n + 1) n (by omega)]
  simp

theorem charsToNat?_repr (n : Nat) : charsToNat? (Nat.repr n).toList = some n := by
  rw [repr_toList]; exact charsToNat?_decRepr n

theorem repr_isDigit (n : Nat) : ∀ c ∈ (Nat.repr n).toList, c.isDigit = true := by
  rw [repr_toList]; exact decRepr_isDigit n

/-! ## Codec round-trip lemmas -/

theorem isDigit_ne_dash {c : Char} (h : c.isDigit = true) : (c != '-') = true := by
  rcases Char.isDigit.eq_1 c ▸ h with h'
  by_contra hne
  have : c = '-' := by
    cases hc : c == '-' with
    | true => exact eq_of_beq hc
    | false => simp [bne, hc] at hne
  subst this
  simp [Char.isDigit] at h

theorem dropWhile_all_append {p : Char → Bool} (l1 : List Char)
    (h1 : ∀ c ∈ l1, p c = true) {x : Char} (hx : p x = false) (l2 : List Char) :
    (l1 ++ x :: l2).dropWhile p = x :: l2 := by
  induction l1 with
  | nil => simp [List.dropWhile_cons, hx]
  | cons c cs ih =>
    have hc : p c = true := h1 c (by simp)
    simp only [List.cons_append, List.dropWhile_cons, hc, if_true]
    exact ih (fun d hd => h1 d (by simp [hd]))

theorem takeWhile_all_append {p : Char → Bool} (l1 : List Char)
    (h1 : ∀ c ∈ l1, p c = true) {x : Char} (hx : p x = false) (l2 : List Char) :
    (l1 ++ x :: l2).takeWhile p = l1 := by
  induction l1 with
  | nil => simp [List.takeWhile_cons, hx]
  | cons c cs ih =>
    have hc : p c = true := h1 c (by simp)
    simp only [List.cons_append, List.takeWhile_cons, hc, if_true]
    rw [ih (fun d hd => h1 d (by simp [hd]))]

theorem splitLastDash_append (base ds : List Char)
    (hds : ∀ c ∈ ds, (c != '-') = true) :
    splitLastDash (base ++ '-' :: ds) = some (base, ds) := by
  unfold splitLastDash
  have hrev : (base ++ '-' :: ds).reverse = ds.reverse ++ '-' :: base.reverse := by
    simp
  have hall : ∀ c ∈ ds.reverse, (c != '-') = true := by
    intro c hc
    exact hds c (List.mem_reverse.mp hc)
  have hdash : (('-' : Char) != '-') = false := by decide
  rw [hrev, dropWhile_all_append ds.reverse hall hdash base.reverse,
    takeWhile_all_append ds.reverse hall hdash base.reverse]
  simp

theorem splitLastDash_shape {cs base ds : List Char}
    (h : splitLastDash cs = some (base, ds)) : cs = base ++ '-' :: ds := by
  unfold splitLastDash at h
  split at h
  · next baseRev heq =>
    have hr : cs.reverse =
        (cs.reverse.takeWhile (fun c => c != '-')) ++ '-' :: baseRev := by
      conv_lhs => rw [← List.takeWhile_append_dropWhile
        (p := fun c => c != '-') (l := cs.reverse)]
      rw [heq]
    simp only [Option.some.injEq, Prod.mk.injEq] at h
    obtain ⟨hb, hd⟩ := h
    have := congrArg List.reverse hr
    simp only [List.reverse_reverse, List.reverse_append, List.reverse_cons,
      List.append_assoc] at this
    rw [this, ← hb, ← hd]
    simp
  · exact absurd h (by simp)

theorem length_toList (s : String) : s.toList.length = s.length := by
  cases s
  rfl

theorem suffixOf_base_length {m b : String} {k : Nat}
    (h : suffixOf m = some (b, k)) : b.length < m.length := by
  unfold suffixOf at h
  cases hsd : splitLastDash m.toList with
  | none => rw [hsd] at h; simp at h
  | some p =>
    rcases p with ⟨base, ds⟩
    rw [hsd] at h
    dsimp only at h
    have hshape := splitLastDash_shape hsd
    cases hc : charsToNat? ds with
    | none => rw [hc] at h; simp at h
    | some k' =>
      rw [hc] at h
      simp only [Option.map_some', Option.some.injEq, Prod.mk.injEq] at h
      obtain ⟨hb, _⟩ := h
      have hlen : m.toList.length = base.length + 1 + ds.length := by
        rw [hshape]; simp; omega
      have h1 : b.length = base.length := by
        rw [← hb]; exact List.length_asString base
      have h2 : m.toList.length = m.length := length_toList m
      omega

theorem suffixOf_append_repr (n : String) (i : Nat) :
    suffixOf (n ++ "-" ++ Nat.repr i) = some (n, i) := by
  unfold suffixOf
  have htl : (n ++ "-" ++ Nat.repr i).toList = n.toList ++ '-' :: (Nat.repr i).toList := by
    show (n ++ "-" ++ Nat.repr i).data = n.data ++ '-' :: (Nat.repr i).data
    simp [String.data_append]
  rw [htl, splitLastDash_append n.toList (Nat.repr i).toList
    (fun c hc => isDigit_ne_dash (repr_isDigit i c hc))]
  dsimp only
  rw [charsToNat?_repr i]
  rw [show n.toList.asString = n from String.asString_toList n]
  simp

theorem mkChunkName_zero (n : String) : mkChunkName n 0 = n := by
  simp [mkChunkName]

theorem mkChunkName_pos (n : String) {i : Nat} (h : i ≠ 0) :
    mkChunkName n i = n ++ "-" ++ Nat.repr i := by
  simp [mkChunkName, h]

theorem suffixOf_mkChunkName (n : String) {i : Nat} (h : i ≠ 0) :
    suffixOf (mkChunkName n i) = some (n, i) := by
  rw [mkChunkName_pos n h]; exact suffixOf_append_repr n i

theorem mkChunkName_length (n : String) {i : Nat} (h : i ≠ 0) :
    n.length < (mkChunkName n i).length := by
  rw [mkChunkName_pos n h]
  have h1 : ("-" : String).length = 1 := rfl
  simp [String.length_append, h1]
  omega

theorem contains_false_of_shorter {b : String} {names : List String}
    (h : ∀ x ∈ names, b.length < x.length) : names.contains b = false := by
  induction names with
  | nil => rfl
  | cons x xs ih =>
    rw [List.contains_cons]
    have hbx : (b == x) = false := by
      apply beq_eq_false_iff_ne.mpr
      intro he
      subst he
      exact lt_irrefl _ (h b (by simp))
    rw [hbx, ih (fun y hy => h y (by simp [hy]))]
    rfl

theorem tagOf_of_no_base {names : List String} {n : String}
    (h : ∀ b k, suffixOf n = some (b, k) → names.contains b = false) :
    tagOf names n = (n, 0) := by
  unfold tagOf
  cases hs : suffixOf n with
  | none => rfl
  | some p =>
    rcases p with ⟨b, k⟩
    dsimp only
    rw [h b k hs]
    simp

theorem tagOf_chunk {names : List String} {n : String} {i : Nat} (hi : i ≠ 0)
    (hn : names.contains n = true) :
    tagOf names (mkChunkName n i) = (n, i) := by
  unfold tagOf
  rw [suffixOf_mkChunkName n hi]
  dsimp only
  rw [hn]
  simp

theorem mem_map_fst_nameChunks {n x : String} :
    ∀ {i : Nat} {cs : List String},
      x ∈ (nameChunks n i cs).map Prod.fst → ∃ j, i ≤ j ∧ x = mkChunkName n j := by
  intro i cs
  induction cs generalizing i with
  | nil => simp [nameChunks]
  | cons c cs ih =>
    intro hx
    simp only [nameChunks, List.map_cons, List.mem_cons] at hx
    rcases hx with hx | hx
    · exact ⟨i, le_refl i, hx⟩
    · obtain ⟨j, hj, he⟩ := ih hx
      exact ⟨j, by omega, he⟩

theorem map_tag_nameChunks {n : String} {names : List String}
    (hn : names.contains n = true) :
    ∀ {i : Nat}, i ≠ 0 → ∀ (cs : List String),
      (nameChunks n i cs).map (fun p => (tagOf names p.1, p.2)) = idxChunks n i cs := by
  intro i hi cs
  induction cs generalizing i with
  | nil => simp [nameChunks, idxChunks]
  | cons c cs ih =>
    simp only [nameChunks, List.map_cons, idxChunks]
    rw [tagOf_chunk hi hn]
    rw [ih (by omega)]

theorem idxChunks_base_mem {n : String} :
    ∀ {i : Nat} {cs : List String} {t : (String × Nat) × String},
      t ∈ idxChunks n i cs → t.1.1 = n := by
  intro i cs
  induction cs generalizing i with
  | nil => simp [idxChunks]
  | cons c cs ih =>
    intro t ht
    simp only [idxChunks, List.mem_cons] at ht
    rcases ht with ht | ht
    · rw [ht]
    · exact ih ht

theorem idxChunks_map_base (n : String) :
    ∀ (i : Nat) (cs : List String),
      (idxChunks n i cs).map (fun t => t.1.1) = List.replicate cs.length n := by
  intro i cs
  induction cs generalizing i with
  | nil => simp [idxChunks]
  | cons c cs ih => simp [idxChunks, List.replicate_succ, ih]

theorem idxChunks_map_idx (n : String) :
    ∀ (i : Nat) (cs : List String),
      (idxChunks n i cs).map (fun t => t.1.2) = List.range' i cs.length := by
  intro i cs
  induction cs generalizing i with
  | nil => simp [idxChunks]
  | cons c cs ih => simp [idxChunks, List.range'_succ, ih]

theorem idxChunks_length (n : String) :
    ∀ (i : Nat) (cs : List String), (idxChunks n i cs).length = cs.length := by
  intro i cs
  induction cs generalizing i with
  | nil => rfl
  | cons c cs ih => simp [idxChunks, ih]

theorem sortByIdx_idxChunks (n : String) :
    ∀ (i : Nat) (cs : List String), sortByIdx (idxChunks n i cs) = idxChunks n i cs := by
  intro i cs
  induction cs generalizing i with
  | nil => rfl
  | cons c cs ih =>
    show sortInsert ((n, i), c) (sortByIdx (idxChunks n (i + 1) cs)) = _
    rw [ih (i + 1)]
    cases cs with
    | nil => rfl
    | cons c2 cs2 =>
      show sortInsert ((n, i), c) (((n, i + 1), c2) :: idxChunks n (i + 2) cs2) = _
      unfold sortInsert
      simp [idxChunks]

theorem concatVals_idxChunks (n : String) :
    ∀ (i : Nat) (cs : List String),
      concatVals (idxChunks n i cs) = cs.foldr (fun a acc => a ++ acc) "" := by
  intro i cs
  induction cs generalizing i with
  | nil => rfl
  | cons c cs ih =>
    show c ++ concatVals (idxChunks n (i + 1) cs) = _
    rw [ih (i + 1)]
    rfl

theorem dedupKeep_replicate {n : String} {seen : List String} (hn : n ∈ seen) :
    ∀ L : Nat, dedupKeep seen (List.replicate L n) = [] := by
  intro L
  induction L with
  | zero => rfl
  | succ L ih => simp [List.replicate_succ, dedupKeep, hn, ih]

theorem dedupKeep_replicate_cons (n : String) (L : Nat) :
    dedupKeep [] (n :: List.replicate L n) = [n] := by
  simp [dedupKeep, dedupKeep_replicate (show n ∈ [n] by simp) L]

theorem chunkList_ne_nil (thr fuel : Nat) (cs : List Char) :
    chunkList thr fuel cs ≠ [] := by
  cases fuel with
  | zero => simp [chunkList]
  | succ fuel =>
    unfold chunkList
    split <;> simp

theorem chunkList_flatten {thr : Nat} (hthr : 0 < thr) :
    ∀ (fuel : Nat) (cs : List Char), cs.length ≤ fuel →
      (chunkList thr fuel cs).flatten = cs := by
  intro fuel
  induction fuel with
  | zero =>
    intro cs hcs
    simp [chunkList]
  | succ fuel ih =>
    intro cs hcs
    unfold chunkList
    split
    · simp
    · next hlen =>
      simp only [List.flatten_cons]
      rw [ih (cs.drop thr) (by simp; omega)]
      exact List.take_append_drop thr cs

theorem asString_append (l1 l2 : List Char) :
    (l1 ++ l2).asString = l1.asString ++ l2.asString := rfl

theorem foldr_append_asString (ls : List (List Char)) :
    (ls.map List.asString).foldr (fun a acc => a ++ acc) "" = ls.flatten.asString := by
  induction ls with
  | nil => rfl
  | cons l rest ih =>
    simp only [List.map_cons, List.foldr_cons, List.flatten_cons, ih]
    rw [asString_append]

theorem foldr_chunksOf {thr : Nat} (hthr : 0 < thr) (v : String) :
    (chunksOf thr v).foldr (fun a acc => a ++ acc) "" = v := by
  unfold chunksOf
  rw [foldr_append_asString, chunkList_flatten hthr _ _ (le_refl _)]
  exact String.asString_toList v

theorem chunksOf_ne_nil (thr : Nat) (v : String) : chunksOf thr v ≠ [] := by
  unfold chunksOf
  simp [chunkList_ne_nil]

/-- Core of the codec round-trip: joining any properly-named chunk run
reassembles the single logical header whose value is the chunk
concatenation. -/
theorem joinHeaders_nameChunks (n : String) (cks : List String) (hne : cks ≠ []) :
    joinHeaders (nameChunks n 0 cks) =
      some [(n, cks.foldr (fun a acc => a ++ acc) "")] := by
  obtain ⟨c, rest, rfl⟩ : ∃ c rest, cks = c :: rest := by
    cases cks with
    | nil => exact absurd rfl hne
    | cons c rest => exact ⟨c, rest, rfl⟩
  have hphys : nameChunks n 0 (c :: rest) = (n, c) :: nameChunks n 1 rest := by
    simp [nameChunks, mkChunkName_zero]
  rw [hphys]
  have hmem_names : ∀ x ∈ n :: (nameChunks n 1 rest).map Prod.fst,
      ∃ j, x = mkChunkName n j := by
    intro x hx
    rcases List.mem_cons.mp hx with hx | hx
    · exact ⟨0, by rw [hx, mkChunkName_zero]⟩
    · obtain ⟨j, _, he⟩ := mem_map_fst_nameChunks hx
      exact ⟨j, he⟩
  have hcont_n : (n :: (nameChunks n 1 rest).map Prod.fst).contains n = true := by
    rw [List.contains_cons]
    simp
  have htag0 : tagOf (n :: (nameChunks n 1 rest).map Prod.fst) n = (n, 0) := by
    apply tagOf_of_no_base
    intro b k hs
    apply contains_false_of_shorter
    intro x hx
    obtain ⟨j, hj⟩ := hmem_names x hx
    have hbn : b.length < n.length := suffixOf_base_length hs
    rcases Nat.eq_zero_or_pos j with hj0 | hjp
    · rw [hj, hj0, mkChunkName_zero]
      exact hbn
    · rw [hj]
      exact lt_trans hbn (mkChunkName_length n (by omega))
  have htags : tagEntries ((n, c) :: nameChunks n 1 rest) = idxChunks n 0 (c :: rest) := by
    unfold tagEntries
    simp only [List.map_cons]
    rw [htag0, map_tag_nameChunks hcont_n (show (1 : Nat) ≠ 0 by omega)]
    simp [idxChunks]
  unfold joinHeaders
  rw [htags]
  rw [idxChunks_map_base n 0 (c :: rest)]
  have hded : dedupKeep [] (List.replicate (c :: rest).length n) = [n] := by
    simp only [List.length_cons, List.replicate_succ]
    exact dedupKeep_replicate_cons n rest.length
  rw [hded]
  unfold collectGroups
  have hfil : groupOf (idxChunks n 0 (c :: rest)) n = idxChunks n 0 (c :: rest) := by
    unfold groupOf
    have h1 : (idxChunks n 0 (c :: rest)).filter (fun t => t.1.1 == n) =
        idxChunks n 0 (c :: rest) := by
      apply List.filter_eq_self.mpr
      intro t ht
      simp [idxChunks_base_mem ht]
    rw [h1, sortByIdx_idxChunks]
  rw [hfil]
  have hidx : (idxChunks n 0 (c :: rest)).map (fun t => t.1.2) =
      List.range (idxChunks n 0 (c :: rest)).length := by
    rw [idxChunks_map_idx, idxChunks_length, List.range_eq_range']
  rw [if_pos hidx]
  rw [show collectGroups (idxChunks n 0 (c :: rest)) [] = some [] from rfl]
  rw [concatVals_idxChunks]
  rfl

/-- C2 (spec-modelled codec round-trip): for any header name and any
logical header value of any length — in particular far above the chunk
threshold — joining the split of the header collection holding that
value returns the collection unchanged, with the value content
preserved exactly: join is an exact left inverse of split. -/
theorem join_split_roundtrip {thr : Nat} (hthr : 0 < thr) (n v : String) :
    joinHeaders (splitHeaders thr [(n, v)]) = some [(n, v)] := by
  by_cases hlen : v.length ≤ thr
  · have hsplit : splitHeaders thr [(n, v)] = [(n, v)] := by
      simp [splitHeaders, hlen]
    rw [hsplit]
    have h1 : [(n, v)] = nameChunks n 0 [v] := by
      simp [nameChunks, mkChunkName_zero]
    conv_lhs => rw [h1]
    rw [joinHeaders_nameChunks n [v] (by simp)]
    simp
  · have hsplit : splitHeaders thr [(n, v)] = nameChunks n 0 (chunksOf thr v) := by
      simp [splitHeaders, hlen]
    rw [hsplit, joinHeaders_nameChunks n _ (chunksOf_ne_nil thr v),
      foldr_chunksOf hthr]

/-- C2 witness: a concrete value far above a concrete threshold
round-trips (the split produces three physical chunks first). -/
theorem join_split_roundtrip_witness :
    (0 : Nat) < 4 ∧
      joinHeaders (splitHeaders 4 [("x-bare-headers", "abcdefghij")]) =
        some [("x-bare-headers", "abcdefghij")] :=
  ⟨by decide, join_split_roundtrip (by decide) "x-bare-headers" "abcdefghij"⟩

/-! ## Claims about endpoint derivation, request and headers -/

/-- C8: constructing the client from a tunnel server base URL keeps the
HTTP endpoint equal to the base URL and derives the WebSocket endpoint
by replacing scheme `http:` with `ws:` and `https:` with `wss:`,
preserving host, path and query (the record update touches only
`protocol`). -/
theorem endpoint_derivation (base : JsURL) :
    (deriveEndpoints base).1 = base
    ∧ (base.protocol = "http:" →
        (deriveEndpoints base).2 = { base with protocol := "ws:" })
    ∧ (base.protocol = "https:" →
        (deriveEndpoints base).2 = { base with protocol := "wss:" }) := by
  refine ⟨rfl, ?_, ?_⟩
  · intro h
    simp [deriveEndpoints, h]
  · intro h
    simp [deriveEndpoints, h]

/-- C8 witness: `http://host/p` yields `ws://host/p` and
`https://host/p` yields `wss://host/p`. -/
theorem endpoint_derivation_witness :
    (deriveEndpoints ⟨"http:", "host", "/p", ""⟩).1 = ⟨"http:", "host", "/p", ""⟩
    ∧ (deriveEndpoints ⟨"http:", "host", "/p", ""⟩).2 = ⟨"ws:", "host", "/p", ""⟩
    ∧ (deriveEndpoints ⟨"https:", "host", "/p", ""⟩).2 = ⟨"wss:", "host", "/p", ""⟩ :=
  ⟨(endpoint_derivation ⟨"http:", "host", "/p", ""⟩).1,
   (endpoint_derivation ⟨"http:", "host", "/p", ""⟩).2.1 rfl,
   (endpoint_derivation ⟨"https:", "host", "/p", ""⟩).2.2 rfl⟩

/-- C10: for every base URL whose scheme is not `https:` — not only
`http:` — the derived WebSocket endpoint's scheme is `ws:`; only an
`https:` base yields `wss:`. -/
theorem ws_scheme_default (base : JsURL) (h : base.protocol ≠ "https:") :
    (deriveEndpoints base).2.protocol = "ws:" := by
  simp [deriveEndpoints, h]

/-- C10 witness: a non-http, non-https scheme also maps to `ws:`. -/
theorem ws_scheme_default_witness :
    (deriveEndpoints ⟨"ftp:", "host", "/p", ""⟩).2.protocol = "ws:" :=
  ws_scheme_default ⟨"ftp:", "host", "/p", ""⟩ (by decide)

/-- C9: `request` mutates the caller's header array in place by
appending `["Host", remote.host]`, and `connect` by appending
`["Host", url.host]`, `["Upgrade", "websocket"]`,
`["Connection", "Upgrade"]` — the array grows by exactly those entries
at its end. -/
theorem headers_mutation (remote url : JsURL) (hs hs2 : List (String × String))
    (resp : PhysResponse) (protocols : List String) :
    (request remote hs resp).mutatedHeaders = hs ++ [("Host", remote.host)]
    ∧ (connectInit url protocols hs2).mutatedHeaders =
        hs2 ++ [("Host", url.host), ("Upgrade", "websocket"), ("Connection", "Upgrade")] :=
  ⟨rfl, rfl⟩

/-- C3: a non-success physical tunnel status makes `request` fail with
a tunnel fault (`BareError`) carrying that physical status and the
JSON-parsed body, and no logical remote response is produced — the two
outcomes are mutually exclusive. -/
theorem tunnel_fault (remote : JsURL) (hs : List (String × String))
    (resp : PhysResponse) (h : resp.okResp = false) :
    (request remote hs resp).result = .error (.bare ⟨resp.status, resp.bodyJson⟩)
    ∧ ∀ r, (request remote hs resp).result ≠ .ok r := by
  have h1 : (request remote hs resp).result = readBareResponse resp := rfl
  have h2 : readBareResponse resp = .error (.bare ⟨resp.status, resp.bodyJson⟩) := by
    unfold readBareResponse
    rw [h]
    simp
  refine ⟨h1.trans h2, ?_⟩
  intro r hr
  rw [h1, h2] at hr
  exact absurd hr (by simp)

/-- C3 witness: physical 404 with body `\x7b"message":"not found"\x7d`
fails with exactly that tunnel fault. -/
theorem tunnel_fault_witness :
    (request ⟨"http:", "ex", "/", ""⟩ []
        ⟨404, .obj [("message", .str "not found")], []⟩).result =
      .error (.bare ⟨404, .obj [("message", .str "not found")]⟩) :=
  (tunnel_fault ⟨"http:", "ex", "/", ""⟩ []
    ⟨404, .obj [("message", .str "not found")], []⟩ (by decide)).1

/-- C1 counterexample: on the spec's own success example — joined
headers `x-bare-status: "201"`, `x-bare-status-text: "Created"`,
`x-bare-headers: '[["content-type","text/plain"]]'` — the code yields
`Object.entries` of the parsed JSON array, i.e. the index-keyed entry
`("0", ["content-type","text/plain"])`, not the array-of-entries
collection `[["content-type","text/plain"]]` decoded verbatim as the
claim states. -/
theorem response_headers_counterexample :
    readBareResponse ⟨200, .null,
      [("x-bare-status", "201"), ("x-bare-status-text", "Created"),
       ("x-bare-headers", "[[\"content-type\",\"text/plain\"]]")]⟩ =
      .ok { status := some (some 201), statusText := some "Created",
            headers := some [("0", .arr [.str "content-type", .str "text/plain"])] }
    ∧ ([("0", Json.arr [.str "content-type", .str "text/plain"])] :
        List (String × Json)) ≠ [("content-type", Json.str "text/plain")] := by
  refine ⟨by rfl, ?_⟩
  intro hcontra
  have h1 : ("0", Json.arr [.str "content-type", .str "text/plain"]) =
      (("content-type" : String), Json.str "text/plain") := by
    injection hcontra
  have h2 : ("0" : String) = "content-type" := by
    injection h1
  exact absurd h2 (by decide)

/-- C1 (amended): on a success response the decoded fields are `status
= parseInt(x-bare-status)` and `statusText` verbatim as claimed, but
`headers` is `Object.entries(JSON.parse(x-bare-headers))`: the
verbatim collection `[["content-type","text/plain"]]` is produced when
the header carries the JSON *object* string
`'\x7b"content-type":"text/plain"\x7d'` (the shape spec §4.5
describes), while the array-of-entries string of spec §6 produces its
index-keyed entries; and whenever
`x-bare-status` / `x-bare-status-text` / `x-bare-headers` is absent,
the corresponding field of the produced result is left unset. -/
theorem response_headers_decode :
    (readBareResponse ⟨200, .null,
      [("x-bare-status", "201"), ("x-bare-status-text", "Created"),
       ("x-bare-headers", "\x7b\"content-type\":\"text/plain\"\x7d")]⟩ =
      .ok { status := some (some 201), statusText := some "Created",
            headers := some [("content-type", Json.str "text/plain")] })
    ∧ (readBareResponse ⟨200, .null,
      [("x-bare-status", "201"), ("x-bare-status-text", "Created"),
       ("x-bare-headers", "[[\"content-type\",\"text/plain\"]]")]⟩ =
      .ok { status := some (some 201), statusText := some "Created",
            headers := some [("0", .arr [.str "content-type", .str "text/plain"])] })
    ∧ (∀ resp rh r, resp.okResp = true → joinHeaders resp.headers = some rh →
        readBareResponse resp = .ok r →
        (lookupHeader rh "x-bare-status" = none → r.status = none)
        ∧ (lookupHeader rh "x-bare-status-text" = none → r.statusText = none)
        ∧ (lookupHeader rh "x-bare-headers" = none → r.headers = none)) := by
  refine ⟨by rfl, by rfl, ?_⟩
  intro resp rh r hok hjoin hread
  unfold readBareResponse at hread
  rw [hok] at hread
  simp only [if_true] at hread
  rw [hjoin] at hread
  dsimp only at hread
  cases hbh : lookupHeader rh "x-bare-headers" with
  | some hstr =>
    rw [hbh] at hread
    dsimp only at hread
    cases hps : parseJson hstr with
    | none => rw [hps] at hread; exact absurd hread (by simp)
    | some j =>
      rw [hps] at hread
      dsimp only at hread
      simp only [Except.ok.injEq] at hread
      refine ⟨?_, ?_, ?_⟩
      · intro hs
        rw [← hread, hs]
        rfl
      · intro hs
        rw [← hread]
        exact hs
      · intro hs
        exact absurd hs (by simp)
  | none =>
    rw [hbh] at hread
    dsimp only at hread
    simp only [Except.ok.injEq] at hread
    refine ⟨?_, ?_, ?_⟩
    · intro hs
      rw [← hread, hs]
      rfl
    · intro hs
      rw [← hread]
      exact hs
    · intro _
      rw [← hread]

/-- C1 witness: a success response carrying none of the three
`x-bare-*` headers decodes to a result with all three fields unset. -/
theorem response_headers_decode_witness :
    readBareResponse ⟨204, Json.null, []⟩ =
      .ok { status := none, statusText := none, headers := none }
    ∧ (none : Option (Option Int)) = none := by
  have h := response_headers_decode.2.2 ⟨204, Json.null, []⟩ []
    { status := none, statusText := none, headers := none }
    (by decide) (by decide) (by rfl)
  exact ⟨by rfl, h.1 (by rfl)⟩

/-- C4 counterexample: with the repeated header name `a`, the pair
`("a","1")` is in the post-`Host`-injection collection of a `request`
call but is not represented in the `Object.fromEntries` object from
which the outbound `x-bare-headers` value is serialized — repeated
names collapse to the last value, so not every pair is represented. -/
theorem outbound_headers_counterexample :
    ("a", "1") ∈ (request ⟨"http:", "h", "/", ""⟩ [("a", "1"), ("a", "2")]
        ⟨200, .null, []⟩).mutatedHeaders
    ∧ ("a", "1") ∉ xBareHeadersObject (request ⟨"http:", "h", "/", ""⟩
        [("a", "1"), ("a", "2")] ⟨200, .null, []⟩).mutatedHeaders := by
  decide

theorem setEntry_append {α : Type} (acc : List (String × α)) (k : String) (v : α)
    (h : k ∉ acc.map Prod.fst) : setEntry acc k v = acc ++ [(k, v)] := by
  induction acc with
  | nil => rfl
  | cons p ps ih =>
    rcases p with ⟨k', v'⟩
    simp only [List.map_cons, List.mem_cons] at h
    push_neg at h
    unfold setEntry
    rw [if_neg (Ne.symm h.1)]
    rw [ih h.2]
    rfl

theorem foldl_setEntry_nodup {α : Type} :
    ∀ (l acc : List (String × α)), ((acc ++ l).map Prod.fst).Nodup →
      l.foldl (fun acc p => setEntry acc p.1 p.2) acc = acc ++ l := by
  intro l
  induction l with
  | nil =>
    intro acc _
    simp
  | cons p ps ih =>
    intro acc h
    rw [List.foldl_cons]
    have hk : p.1 ∉ acc.map Prod.fst := by
      intro hmem
      rw [List.map_append] at h
      rcases (List.nodup_append.mp h) with ⟨_, _, hdisj⟩
      exact hdisj hmem (by simp)
    have hse : setEntry acc p.1 p.2 = acc ++ [p] := by
      rw [setEntry_append acc p.1 p.2 hk]
    rw [hse]
    rw [ih (acc ++ [p]) (by simpa [List.append_assoc] using h)]
    simp

/-- Entry lists with pairwise-distinct names are fixed points of the
`Object.fromEntries` model. -/
theorem fromEntriesJS_nodup {α : Type} (l : List (String × α))
    (h : (l.map Prod.fst).Nodup) : fromEntriesJS l = l := by
  unfold fromEntriesJS
  rw [foldl_setEntry_nodup l [] (by simpa using h)]
  simp

/-- C4 (amended): the outbound `x-bare-headers` object of `request`
and the `headers` object of the Connect control message are built by
`Object.fromEntries`, which keeps, per name, only the last value (at
the first occurrence's position).  When the post-injection collection
has pairwise-distinct names — and only then — every (name, value) pair
is represented, in order: the object equals the post-injection
collection itself. -/
theorem outbound_headers_faithful (remote url : JsURL)
    (hs hs2 : List (String × String)) (resp : PhysResponse) (protocols : List String)
    (h1 : (((request remote hs resp).mutatedHeaders).map Prod.fst).Nodup)
    (h2 : (((connectInit url protocols hs2).mutatedHeaders).map Prod.fst).Nodup) :
    xBareHeadersObject (request remote hs resp).mutatedHeaders =
      (request remote hs resp).mutatedHeaders
    ∧ fromEntriesJS (connectInit url protocols hs2).mutatedHeaders =
        (connectInit url protocols hs2).mutatedHeaders :=
  ⟨fromEntriesJS_nodup _ h1, fromEntriesJS_nodup _ h2⟩

/-- C4 witness: with distinct names the outbound object lists every
post-injection pair in order, for both `request` and `connect`. -/
theorem outbound_headers_faithful_witness :
    xBareHeadersObject [("Accept", "x"), ("Host", "h")] = [("Accept", "x"), ("Host", "h")]
    ∧ fromEntriesJS [("Accept", "x"), ("Host", "w"), ("Upgrade", "websocket"),
        ("Connection", "Upgrade")] =
      [("Accept", "x"), ("Host", "w"), ("Upgrade", "websocket"), ("Connection", "Upgrade")] := by
  have h := outbound_headers_faithful ⟨"http:", "h", "/", ""⟩ ⟨"ws:", "w", "/", ""⟩
    [("Accept", "x")] [("Accept", "x")] ⟨200, .null, []⟩ [] (by decide) (by decide)
  exact ⟨h.1, h.2⟩

/-! ## Claims about the WebSocket handshake state machine -/

theorem runConnFrom_cons (c : ConnectInit) (s : ConnState) (e : WSEvent)
    (es : List WSEvent) :
    runConnFrom c s (e :: es) =
      (stepConn c s e).2 ++ runConnFrom c (stepConn c s e).1 es := by
  simp [runConnFrom, stepsConn]

theorem stepConn_opened_active (c : ConnectInit) {s : ConnState}
    (h : s.openListenerActive = true) :
    stepConn c s .opened =
      ({ s with openListenerActive := false }, [.send (connectText c)]) := by
  simp [stepConn, h]

theorem stepConn_opened_inactive (c : ConnectInit) {s : ConnState}
    (h : s.openListenerActive = false) :
    stepConn c s .opened = (s, []) := by
  simp [stepConn, h]

theorem runConnFrom_established (c : ConnectInit) :
    ∀ evs : List WSEvent,
      runConnFrom c ⟨false, false, true⟩ evs = passThroughActions evs := by
  intro evs
  induction evs with
  | nil => rfl
  | cons e es ih =>
    rw [runConnFrom_cons]
    cases e with
    | opened => simp [stepConn, passThroughActions, ih]
    | message d => simp [stepConn, passThroughActions, ih]
    | closed code reason => simp [stepConn, passThroughActions, ih]

theorem passThrough_no_onopen :
    ∀ evs : List WSEvent, (passThroughActions evs).countP isOnopenB = 0 := by
  intro evs
  induction evs with
  | nil => rfl
  | cons e es ih =>
    cases e <;> simp [passThroughActions, isOnopenB, List.countP_cons, ih]

theorem runConnFrom_dead (c : ConnectInit) :
    ∀ evs : List WSEvent, runConnFrom c ⟨false, false, false⟩ evs = [] := by
  intro evs
  induction evs with
  | nil => rfl
  | cons e es ih =>
    rw [runConnFrom_cons]
    cases e with
    | opened => simpa [stepConn] using ih
    | message d => simpa [stepConn] using ih
    | closed code reason => simpa [stepConn] using ih

/-- C5: when the first incoming socket message is a text frame that
parses as a JSON value of `type == "open"` with protocol `p`,
`onopen(p, "")` is invoked exactly once, and every message arriving
after that first frame is delivered to `onmessage` unmodified (and
never re-interpreted as a handshake frame), with close events forwarded
to `onclose` — the whole run is the Connect send, the single `onopen`,
then pure pass-through of the remaining events. -/
theorem handshake_open (c : ConnectInit) (s : String) (j : Json) (p : Option String)
    (rest : List WSEvent)
    (hparse : parseJson s = some j) (htype : jsonTypeIsOpen j = true)
    (hproto : protocolOf j = p) :
    runConn c (.opened :: .message (.text s) :: rest) =
      .send (connectText c) :: .onopen p "" :: passThroughActions rest
    ∧ (runConn c (.opened :: .message (.text s) :: rest)).countP isOnopenB = 1 := by
  have hstep1 : stepConn c initConnState .opened =
      (⟨false, true, false⟩, [.send (connectText c)]) := by
    rw [stepConn_opened_active c (by rfl)]
    rfl
  have hstep2 : stepConn c ⟨false, true, false⟩ (.message (.text s)) =
      (⟨false, false, true⟩, [.onopen p ""]) := by
    simp [stepConn, hparse, htype, hproto]
  have h1 : runConn c (.opened :: .message (.text s) :: rest) =
      .send (connectText c) :: .onopen p "" :: passThroughActions rest := by
    unfold runConn
    rw [runConnFrom_cons, hstep1]
    dsimp only
    rw [runConnFrom_cons, hstep2]
    dsimp only
    rw [runConnFrom_established c rest]
    rfl
  refine ⟨h1, ?_⟩
  rw [h1]
  simp [List.countP_cons, isOnopenB, passThrough_no_onopen rest]

/-- C5 witness: the spec's `"chat"` handshake frame fires
`onopen (some "chat") ""` once and a following binary frame is handed
to `onmessage` unmodified. -/
theorem handshake_open_witness :
    runConn (connectInit ⟨"ws:", "h", "/", ""⟩ [] [])
        [.opened,
         .message (.text "\x7b\"type\":\"open\",\"protocol\":\"chat\",\"setCookies\":[]\x7d"),
         .message (.binary [7])] =
      [.send (connectText (connectInit ⟨"ws:", "h", "/", ""⟩ [] [])),
       .onopen (some "chat") "", .onmessage (.binary [7])] := by
  have h := handshake_open (connectInit ⟨"ws:", "h", "/", ""⟩ [] [])
    "\x7b\"type\":\"open\",\"protocol\":\"chat\",\"setCookies\":[]\x7d"
    (.obj [("type", .str "open"), ("protocol", .str "chat"), ("setCookies", .arr [])])
    (some "chat") [.message (.binary [7])] (by rfl) (by rfl) (by rfl)
  rw [h.1]
  rfl

/-- C6: when the first incoming socket message is not a text frame, or
does not parse as JSON with `type == "open"`, neither `onopen` nor
`onmessage` is ever invoked on the whole run, and the violation is
reported as a thrown exception (the code's `TypeError` /
`JSON.parse` `SyntaxError`; the unused `onerror` callback is never
called), exactly once. -/
theorem handshake_violation (c : ConnectInit) (d : WSData) (rest : List WSEvent)
    (hbad : firstFrameBad d = true) :
    (runConn c (.opened :: .message d :: rest)).countP isOnopenB = 0
    ∧ (runConn c (.opened :: .message d :: rest)).countP isOnmessageB = 0
    ∧ (runConn c (.opened :: .message d :: rest)).countP isThrowB = 1 := by
  have hstep1 : stepConn c initConnState .opened =
      (⟨false, true, false⟩, [.send (connectText c)]) := by
    rw [stepConn_opened_active c (by rfl)]
    rfl
  have hrun : ∃ msg, runConn c (.opened :: .message d :: rest) =
      [.send (connectText c), .throwErr msg] := by
    unfold runConn
    rw [runConnFrom_cons, hstep1]
    dsimp only
    rw [runConnFrom_cons]
    cases d with
    | binary bs =>
      refine ⟨"the first websocket message was not a text frame", ?_⟩
      have hstep2 : stepConn c ⟨false, true, false⟩ (.message (.binary bs)) =
          (⟨false, false, false⟩,
           [.throwErr "the first websocket message was not a text frame"]) := by
        simp [stepConn]
      rw [hstep2]
      dsimp only
      rw [runConnFrom_dead c rest]
      rfl
    | text str =>
      cases hp : parseJson str with
      | none =>
        refine ⟨"SyntaxError: JSON.parse", ?_⟩
        have hstep2 : stepConn c ⟨false, true, false⟩ (.message (.text str)) =
            (⟨false, false, false⟩, [.throwErr "SyntaxError: JSON.parse"]) := by
          simp [stepConn, hp]
        rw [hstep2]
        dsimp only
        rw [runConnFrom_dead c rest]
        rfl
      | some j =>
        have hnot : jsonTypeIsOpen j = false := by
          unfold firstFrameBad at hbad
          dsimp only at hbad
          rw [hp] at hbad
          dsimp only at hbad
          simpa using hbad
        refine ⟨"message was not of open type", ?_⟩
        have hstep2 : stepConn c ⟨false, true, false⟩ (.message (.text str)) =
            (⟨false, false, false⟩, [.throwErr "message was not of open type"]) := by
          simp [stepConn, hp, hnot]
        rw [hstep2]
        dsimp only
        rw [runConnFrom_dead c rest]
        rfl
  obtain ⟨msg, hr⟩ := hrun
  rw [hr]
  refine ⟨?_, ?_, ?_⟩ <;>
    simp [List.countP_cons, isOnopenB, isOnmessageB, isThrowB]

/-- C6 witness: a binary first frame yields no `onopen`, no
`onmessage`, and one thrown violation, even with further traffic. -/
theorem handshake_violation_witness :
    (runConn (connectInit ⟨"ws:", "h", "/", ""⟩ [] [])
        [.opened, .message (.binary [1, 2]), .message (.text "later")]).countP isOnopenB = 0
    ∧ (runConn (connectInit ⟨"ws:", "h", "/", ""⟩ [] [])
        [.opened, .message (.binary [1, 2]), .message (.text "later")]).countP isOnmessageB = 0
    ∧ (runConn (connectInit ⟨"ws:", "h", "/", ""⟩ [] [])
        [.opened, .message (.binary [1, 2]), .message (.text "later")]).countP isThrowB = 1 :=
  handshake_violation (connectInit ⟨"ws:", "h", "/", ""⟩ [] [])
    (.binary [1, 2]) [.message (.text "later")] (by decide)

theorem stepConn_message_spec (c : ConnectInit) (s : ConnState) (d : WSData) :
    (∀ a ∈ (stepConn c s (.message d)).2, isSendB a = false)
    ∧ (stepConn c s (.message d)).1.openListenerActive = s.openListenerActive := by
  by_cases hh : s.handshakeActive
  · cases d with
    | binary bs => simp [stepConn, hh, isSendB]
    | text str =>
      cases hp : parseJson str with
      | none => simp [stepConn, hh, hp, isSendB]
      | some j =>
        by_cases ht : jsonTypeIsOpen j
        · simp [stepConn, hh, hp, ht, isSendB]
        · simp [stepConn, hh, hp, ht, isSendB]
  · by_cases he : s.established
    · simp [stepConn, hh, he, isSendB]
    · simp [stepConn, hh, he, isSendB]

theorem stepConn_closed_spec (c : ConnectInit) (s : ConnState) (code : Nat)
    (reason : String) :
    (∀ a ∈ (stepConn c s (.closed code reason)).2, isSendB a = false)
    ∧ (stepConn c s (.closed code reason)).1.openListenerActive = s.openListenerActive := by
  by_cases hh : s.handshakeActive
  · simp [stepConn, hh, isSendB]
  · by_cases he : s.established <;> simp [stepConn, hh, he, isSendB]

theorem runConnFrom_no_send (c : ConnectInit) :
    ∀ (evs : List WSEvent) (s : ConnState), s.openListenerActive = false →
      (runConnFrom c s evs).filter isSendB = [] := by
  intro evs
  induction evs with
  | nil => intro s _; rfl
  | cons e es ih =>
    intro s h
    rw [runConnFrom_cons, List.filter_append]
    cases e with
    | opened =>
      rw [stepConn_opened_inactive c h]
      simpa using ih s h
    | message d =>
      obtain ⟨h1, h2⟩ := stepConn_message_spec c s d
      rw [List.filter_eq_nil_iff.mpr (fun a ha => by simp [h1 a ha])]
      simpa using ih _ (h2.trans h)
    | closed code reason =>
      obtain ⟨h1, h2⟩ := stepConn_closed_spec c s code reason
      rw [List.filter_eq_nil_iff.mpr (fun a ha => by simp [h1 a ha])]
      simpa using ih _ (h2.trans h)

theorem runConnFrom_send_once (c : ConnectInit) :
    ∀ (evs : List WSEvent) (s : ConnState),
      (runConnFrom c s evs).filter isSendB = []
      ∨ (runConnFrom c s evs).filter isSendB = [.send (connectText c)] := by
  intro evs
  induction evs with
  | nil => intro s; left; rfl
  | cons e es ih =>
    intro s
    rw [runConnFrom_cons, List.filter_append]
    cases e with
    | opened =>
      by_cases ho : s.openListenerActive
      · rw [stepConn_opened_active c ho]
        right
        dsimp only
        rw [runConnFrom_no_send c es _ (by rfl)]
        simp [isSendB]
      · rw [stepConn_opened_inactive c (by simpa using ho)]
        simpa using ih s
    | message d =>
      obtain ⟨h1, _⟩ := stepConn_message_spec c s d
      rw [List.filter_eq_nil_iff.mpr (fun a ha => by simp [h1 a ha])]
      simpa using ih _
    | closed code reason =>
      obtain ⟨h1, _⟩ := stepConn_closed_spec c s code reason
      rw [List.filter_eq_nil_iff.mpr (fun a ha => by simp [h1 a ha])]
      simpa using ih _

theorem sendOnlyOnOpen_all (c : ConnectInit) :
    ∀ (evs : List WSEvent) (s : ConnState),
      sendOnlyOnOpenB (evs.zip (stepsConn c s evs)) = true := by
  intro evs
  induction evs with
  | nil => intro s; rfl
  | cons e es ih =>
    intro s
    show sendOnlyOnOpenB ((e, (stepConn c s e).2) ::
      es.zip (stepsConn c (stepConn c s e).1 es)) = true
    unfold sendOnlyOnOpenB
    rw [Bool.and_eq_true]
    refine ⟨?_, ih _⟩
    cases e with
    | opened => simp
    | message d =>
      obtain ⟨h1, _⟩ := stepConn_message_spec c s d
      have hany : (stepConn c s (.message d)).2.any isSendB = false := by
        rw [List.any_eq_false]
        intro a ha
        simp [h1 a ha]
      simp [hany]
    | closed code reason =>
      obtain ⟨h1, _⟩ := stepConn_closed_spec c s code reason
      have hany : (stepConn c s (.closed code reason)).2.any isSendB = false := by
        rw [List.any_eq_false]
        intro a ha
        simp [h1 a ha]
      simp [hany]

theorem stepConn_handshake_false (c : ConnectInit) (s : ConnState) (e : WSEvent)
    (h : s.handshakeActive = false) :
    (∀ a ∈ (stepConn c s e).2, isOnopenB a = false)
    ∧ (stepConn c s e).1.handshakeActive = false := by
  cases e with
  | opened =>
    by_cases ho : s.openListenerActive <;> simp [stepConn, ho, isOnopenB, h]
  | message d =>
    by_cases he : s.established <;> simp [stepConn, h, he, isOnopenB]
  | closed code reason =>
    by_cases he : s.established <;> simp [stepConn, h, he, isOnopenB]

theorem runConnFrom_onopen_zero (c : ConnectInit) :
    ∀ (evs : List WSEvent) (s : ConnState), s.handshakeActive = false →
      (runConnFrom c s evs).countP isOnopenB = 0 := by
  intro evs
  induction evs with
  | nil => intro s _; rfl
  | cons e es ih =>
    intro s h
    rw [runConnFrom_cons, List.countP_append]
    obtain ⟨h1, h2⟩ := stepConn_handshake_false c s e h
    rw [List.countP_eq_zero.mpr (fun a ha => by simp [h1 a ha]), ih _ h2]

theorem runConnFrom_onopen_le (c : ConnectInit) :
    ∀ (evs : List WSEvent) (s : ConnState),
      (runConnFrom c s evs).countP isOnopenB ≤ 1 := by
  intro evs
  induction evs with
  | nil => intro s; simp [runConnFrom, stepsConn]
  | cons e es ih =>
    intro s
    by_cases hh : s.handshakeActive
    · rw [runConnFrom_cons, List.countP_append]
      cases e with
      | opened =>
        by_cases ho : s.openListenerActive
        · rw [stepConn_opened_active c ho]
          have h0 : ([CBAction.send (connectText c)].countP isOnopenB) = 0 := by
            simp [isOnopenB, List.countP_cons]
          dsimp only
          rw [h0]
          simpa using ih _
        · rw [stepConn_opened_inactive c (by simpa using ho)]
          simpa using ih s
      | message d =>
        cases d with
        | binary bs =>
          rw [show stepConn c s (.message (.binary bs)) =
              ({ s with handshakeActive := false },
               [.throwErr "the first websocket message was not a text frame"]) from
            by simp [stepConn, hh]]
          have h0 := runConnFrom_onopen_zero c es
            ({ s with handshakeActive := false }) (by simp)
          simp [isOnopenB, List.countP_cons, h0]
        | text str =>
          cases hp : parseJson str with
          | none =>
            rw [show stepConn c s (.message (.text str)) =
                ({ s with handshakeActive := false },
                 [.throwErr "SyntaxError: JSON.parse"]) from by simp [stepConn, hh, hp]]
            have h0 := runConnFrom_onopen_zero c es
              ({ s with handshakeActive := false }) (by simp)
            simp [isOnopenB, List.countP_cons, h0]
          | some j =>
            by_cases ht : jsonTypeIsOpen j
            · rw [show stepConn c s (.message (.text str)) =
                  ({ s with handshakeActive := false, established := true },
                   [.onopen (protocolOf j) ""]) from by simp [stepConn, hh, hp, ht]]
              have h0 := runConnFrom_onopen_zero c es
                ({ s with handshakeActive := false, established := true }) (by simp)
              simp [isOnopenB, List.countP_cons, h0]
            · rw [show stepConn c s (.message (.text str)) =
                  ({ s with handshakeActive := false },
                   [.throwErr "message was not of open type"]) from
                by simp [stepConn, hh, hp, ht]]
              have h0 := runConnFrom_onopen_zero c es
                ({ s with handshakeActive := false }) (by simp)
              simp [isOnopenB, List.countP_cons, h0]
      | closed code reason =>
        rw [show stepConn c s (.closed code reason) =
            ({ s with handshakeActive := false }, [.onclose code reason]) from
          by simp [stepConn, hh]]
        have h0 := runConnFrom_onopen_zero c es
          ({ s with handshakeActive := false }) (by simp)
        simp [isOnopenB, List.countP_cons, h0]
    · rw [runConnFrom_onopen_zero c (e :: es) s (by simpa using hh)]
      simp

theorem noMsgBeforeOpen_append {l1 l2 : List CBAction}
    (h : ∀ a ∈ l1, isOnopenB a = false ∧ isOnmessageB a = false) :
    noMsgBeforeOpenB (l1 ++ l2) = noMsgBeforeOpenB l2 := by
  induction l1 with
  | nil => rfl
  | cons a as ih =>
    obtain ⟨h1, h2⟩ := h a (by simp)
    cases a with
    | send payload => exact ih (fun x hx => h x (by simp [hx]))
    | onopen p ext => simp [isOnopenB] at h1
    | onmessage d => simp [isOnmessageB] at h2
    | onclose code reason => exact ih (fun x hx => h x (by simp [hx]))
    | throwErr m => exact ih (fun x hx => h x (by simp [hx]))

theorem noMsgBeforeOpen_of_no_onmessage {l : List CBAction}
    (h : ∀ a ∈ l, isOnmessageB a = false) : noMsgBeforeOpenB l = true := by
  induction l with
  | nil => rfl
  | cons a as ih =>
    cases a with
    | onopen p ext => rfl
    | onmessage d =>
      have := h (.onmessage d) (by simp)
      simp [isOnmessageB] at this
    | send payload => exact ih (fun x hx => h x (by simp [hx]))
    | onclose code reason => exact ih (fun x hx => h x (by simp [hx]))
    | throwErr m => exact ih (fun x hx => h x (by simp [hx]))

theorem stepConn_inert (c : ConnectInit) (s : ConnState) (e : WSEvent)
    (hh : s.handshakeActive = false) (he : s.established = false) :
    (stepConn c s e).1.handshakeActive = false
    ∧ (stepConn c s e).1.established = false
    ∧ ∀ a ∈ (stepConn c s e).2, isOnmessageB a = false ∧ isOnopenB a = false := by
  cases e with
  | opened =>
    by_cases ho : s.openListenerActive <;>
      simp [stepConn, ho, hh, he, isOnmessageB, isOnopenB]
  | message d => simp [stepConn, hh, he]
  | closed code reason => simp [stepConn, hh, he]

theorem runConnFrom_inert (c : ConnectInit) :
    ∀ (evs : List WSEvent) (s : ConnState), s.handshakeActive = false →
      s.established = false →
      ∀ a ∈ runConnFrom c s evs, isOnmessageB a = false ∧ isOnopenB a = false := by
  intro evs
  induction evs with
  | nil =>
    intro s _ _ a ha
    simp [runConnFrom, stepsConn] at ha
  | cons e es ih =>
    intro s hh he a ha
    rw [runConnFrom_cons] at ha
    obtain ⟨h1, h2, h3⟩ := stepConn_inert c s e hh he
    rcases List.mem_append.mp ha with ha | ha
    · exact h3 a ha
    · exact ih _ h1 h2 a ha

theorem runConnFrom_nomsg (c : ConnectInit) :
    ∀ (evs : List WSEvent) (s : ConnState), s.established = false →
      noMsgBeforeOpenB (runConnFrom c s evs) = true := by
  intro evs
  induction evs with
  | nil => intro s _; rfl
  | cons e es ih =>
    intro s he
    by_cases hh : s.handshakeActive
    · rw [runConnFrom_cons]
      cases e with
      | opened =>
        by_cases ho : s.openListenerActive
        · rw [stepConn_opened_active c ho]
          rw [noMsgBeforeOpen_append
            (by intro a ha; simp at ha; subst ha; simp [isOnopenB, isOnmessageB])]
          exact ih _ he
        · rw [stepConn_opened_inactive c (by simpa using ho)]
          simpa using ih s he
      | message d =>
        cases d with
        | binary bs =>
          rw [show stepConn c s (.message (.binary bs)) =
              ({ s with handshakeActive := false },
               [.throwErr "the first websocket message was not a text frame"]) from
            by simp [stepConn, hh]]
          rw [noMsgBeforeOpen_append
            (by intro a ha; simp at ha; subst ha; simp [isOnopenB, isOnmessageB])]
          exact ih _ he
        | text str =>
          cases hp : parseJson str with
          | none =>
            rw [show stepConn c s (.message (.text str)) =
                ({ s with handshakeActive := false },
                 [.throwErr "SyntaxError: JSON.parse"]) from by simp [stepConn, hh, hp]]
            rw [noMsgBeforeOpen_append
              (by intro a ha; simp at ha; subst ha; simp [isOnopenB, isOnmessageB])]
            exact ih _ he
          | some j =>
            by_cases ht : jsonTypeIsOpen j
            · rw [show stepConn c s (.message (.text str)) =
                  ({ s with handshakeActive := false, established := true },
                   [.onopen (protocolOf j) ""]) from by simp [stepConn, hh, hp, ht]]
              rfl
            · rw [show stepConn c s (.message (.text str)) =
                  ({ s with handshakeActive := false },
                   [.throwErr "message was not of open type"]) from
                by simp [stepConn, hh, hp, ht]]
              rw [noMsgBeforeOpen_append
                (by intro a ha; simp at ha; subst ha; simp [isOnopenB, isOnmessageB])]
              exact ih _ he
      | closed code reason =>
        rw [show stepConn c s (.closed code reason) =
            ({ s with handshakeActive := false }, [.onclose code reason]) from
          by simp [stepConn, hh]]
        rw [noMsgBeforeOpen_append
          (by intro a ha; simp at ha; subst ha; simp [isOnopenB, isOnmessageB])]
        exact ih _ he
    · apply noMsgBeforeOpen_of_no_onmessage
      intro a ha
      exact (runConnFrom_inert c (e :: es) s (by simpa using hh) he a ha).1

/-- C7: within one `connect` call, over every possible socket event
sequence — (i) the machinery sends at most one payload, and any
payload it sends is exactly the serialized Connect control message
`\x7b"type":"connect",...,"forwardHeaders":[]\x7d` (with
`forwardHeaders` empty), so the Connect message is the machinery's
only (hence first) outbound payload; (ii) a send happens only while
processing a socket `open` event, i.e. strictly after the underlying
socket reports open; (iii) the Open control message is consumed
(`onopen` fired) at most once; and (iv) no frame reaches `onmessage`
before that single `onopen`. -/
theorem connect_control_ordering (c : ConnectInit) (evs : List WSEvent) :
    ((runConn c evs).filter isSendB = []
      ∨ (runConn c evs).filter isSendB = [.send (connectText c)])
    ∧ sendOnlyOnOpenB (evs.zip (stepsConn c initConnState evs)) = true
    ∧ (runConn c evs).countP isOnopenB ≤ 1
    ∧ noMsgBeforeOpenB (runConn c evs) = true :=
  ⟨runConnFrom_send_once c evs initConnState,
   sendOnlyOnOpen_all c evs initConnState,
   runConnFrom_onopen_le c evs initConnState,
   runConnFrom_nomsg c evs initConnState rfl⟩

end BareV3
